import Mathlib

/-!
Shallow embedding of the Python-Learning-Tool diagram pipeline
(`Myparser/graphml_parser.py`, `classifier/diagram_type.py`,
`classifier/shape_label.py`, `traverser/graph_traverser.py`,
`interpreter/interpreter.py`) together with theorems settling the
frozen specification claims.

Python strings are modelled as Lean `String`; Python dicts keyed by
strings are modelled as association lists with explicit insert/lookup
functions mirroring dict semantics (insertion order kept, value
replaced on duplicate key, lookup of the latest binding).  Python
exceptions are modelled with `Except`; a function that catches all
exceptions is the total function obtained by mapping `.error` to the
caught-branch result.
-/

namespace PLT

/-- Boolean substring test: models the Python expression `pat in s`. -/
def containsSub (s pat : String) : Bool :=
  decide (pat.toList <:+: s.toList)

/-- Python `str.lower()` (ASCII).  Defined by structural recursion over
the character list so that concrete scenarios evaluate inside the
kernel. -/
def pyLower (s : String) : String :=
  ⟨s.data.map Char.toLower⟩

/-- Python `str.strip()` (whitespace from both ends). -/
def pyTrim (s : String) : String :=
  ⟨((s.data.dropWhile Char.isWhitespace).reverse.dropWhile
      Char.isWhitespace).reverse⟩

/-- Python `str.startswith(pre)`. -/
def pyStartsWith (s pre : String) : Bool :=
  pre.data.isPrefixOf s.data

/-- The characters after the last `'.'`: Python `s.split(".")[-1]`. -/
def lastDotSeg (l : List Char) : List Char :=
  (l.reverse.takeWhile (fun c => c ≠ '.')).reverse

/-! ## Data model (`Myparser/graphml_parser.py`, classes `Node` and `Edge`)

The `metadata` dict written by the loader only ever receives the two keys
`raw_shape` and `raw_config`; it is modelled by two string fields. -/

structure Node where
  id : String
  label : String := ""
  shape : String := ""
  raw_shape : String := ""
  raw_config : String := ""
deriving DecidableEq, Repr

structure Edge where
  source : String
  target : String
  label : String := ""
deriving DecidableEq, Repr

/-- Convenience constructor for nodes built directly in scenarios (the
empty metadata of a hand-made `Node(...)`). -/
def mkNode (id label shape : String) : Node :=
  { id := id, label := label, shape := shape }

/-! ## GraphML input model

`parse_graphml` reads an XML document with ElementTree.  Only the pieces
the loader inspects are modelled: per node the `id` attribute (absent ->
`KeyError`), the text of an optional `y:NodeLabel` element, the `type`
attribute of an optional `y:Shape` element, the `type` attribute of an
optional `y:FlowchartShape` element and the `configuration` attribute of
an optional `y:GenericNode` element (`attrib.get` with default `""` is
folded into the stored string); per edge the `source`/`target`
attributes (absent -> `KeyError`) and the text of an optional
`y:EdgeLabel`.  A document whose markup does not parse at all
(`ET.parse` raising) is modelled by the `none` input. -/

structure RawXmlNode where
  id : Option String
  labelText : Option String := none
  shapeType : Option String := none
  fcShapeType : Option String := none
  genericConfig : Option String := none
deriving DecidableEq, Repr

structure RawXmlEdge where
  source : Option String
  target : Option String
  labelText : Option String := none
deriving DecidableEq, Repr

structure XmlDoc where
  graph : Option (List RawXmlNode × List RawXmlEdge)
deriving DecidableEq, Repr

/-- Python exceptions that the loader's body can raise. -/
inductive PyErr where
  | parseErr : PyErr
  | keyErr : PyErr
  | nameErr : PyErr
deriving DecidableEq, Repr

/-- Shape derivation from a `y:GenericNode` configuration string
(`graphml_parser.py` lines 70-80); `config` is already lowercased. -/
def deriveShape (config : String) : String :=
  if containsSub config "terminator" || containsSub config "start" then "ellipse"
  else if containsSub config "decision" then "diamond"
  else if containsSub config "data" || containsSub config "input" then "parallelogram"
  else if containsSub config "process" then "rectangle"
  else ⟨lastDotSeg config.data⟩

/-- One iteration of the node loop (`graphml_parser.py` lines 44-86).
The Python local variable `generic` is only assigned inside the
`if not shape:` branch, yet read unconditionally at line 84; it is
therefore threaded through the loop as `genericVar`, where `none`
means "never assigned so far" (reading it raises `NameError`) and
`some g` means "assigned, holding the find result `g`". -/
def parseOneNode (genericVar : Option (Option String)) (rn : RawXmlNode) :
    Except PyErr (Node × Option (Option String)) := do
  let nodeId ← match rn.id with
    | some i => pure i
    | none => throw PyErr.keyErr
  let label := pyTrim (rn.labelText.getD "")
  let shapeA := match rn.shapeType with
    | some t => pyLower t
    | none => ""
  let shapeB := if shapeA = "" then
      (match rn.fcShapeType with
       | some t => pyLower t
       | none => "")
    else shapeA
  let sg := if shapeB = "" then
      (match rn.genericConfig with
       | some cfg => (deriveShape (pyLower cfg), some (some cfg))
       | none => (shapeB, some (none : Option String)))
    else (shapeB, genericVar)
  let rawConfig ← match sg.2 with
    | none => throw PyErr.nameErr
    | some none => pure ""
    | some (some cfg) => pure cfg
  pure ({ id := nodeId, label := label, shape := sg.1,
          raw_shape := sg.1, raw_config := rawConfig }, sg.2)

/-- The node loop of `parse_graphml`, threading the `generic` variable
state across iterations. -/
def parseNodesLoop : List RawXmlNode → Option (Option String) →
    Except PyErr (List Node)
  | [], _ => pure []
  | rn :: rest, gv => do
      let ng ← parseOneNode gv rn
      let ns ← parseNodesLoop rest ng.2
      pure (ng.1 :: ns)

/-- One iteration of the edge loop (`graphml_parser.py` lines 88-97). -/
def parseOneEdge (re : RawXmlEdge) : Except PyErr Edge := do
  let s ← match re.source with
    | some s => pure s
    | none => throw PyErr.keyErr
  let t ← match re.target with
    | some t => pure t
    | none => throw PyErr.keyErr
  let label := match re.labelText with
    | some txt => pyLower (pyTrim txt)
    | none => ""
  pure { source := s, target := t, label := label }

/-- Body of the `try:` block of `parse_graphml`: the computation that can
raise.  A missing `<graph>` root returns two empty lists (not an error). -/
def parse_graphml_core (input : Option XmlDoc) :
    Except PyErr (List Node × List Edge) :=
  match input with
  | none => throw PyErr.parseErr
  | some doc =>
    match doc.graph with
    | none => pure ([], [])
    | some g => do
        let nodes ← parseNodesLoop g.1 none
        let edges ← g.2.mapM parseOneEdge
        pure (nodes, edges)

/-- The full `parse_graphml` (lines 26-104): the `except Exception`
handler maps every raised error to two empty lists. -/
def parse_graphml (input : Option XmlDoc) : List Node × List Edge :=
  match parse_graphml_core input with
  | .ok r => r
  | .error _ => ([], [])

/-! ## Diagram classifier (`classifier/diagram_type.py`) -/

/-- The five score buckets, in the dict insertion order of
`diagram_type.py` lines 12-18. -/
structure Scores where
  uml : Nat := 0
  fc : Nat := 0
  seq : Nat := 0
  er : Nat := 0
  act : Nat := 0
deriving DecidableEq, Repr

def uml_keywords : List String :=
  ["class", "attribute", "method", "<<interface>>", "<<abstract>>"]
def flowchart_keywords : List String :=
  ["start", "stop", "input", "output", "decision", "process", "end"]
def sequence_keywords : List String :=
  ["activate", "deactivate", "message", "return", "lifeline"]
def er_keywords : List String :=
  ["entity", "relation", "attribute", "primary key", "foreign key"]
def activity_keywords : List String :=
  ["activity", "fork", "join", "action", "swimlane"]

/-- Python `any(kw in label for kw in kws)`. -/
def anyKw (label : String) (kws : List String) : Bool :=
  kws.any (fun kw => containsSub label kw)

/-- Score contributions of one node (`diagram_type.py` lines 20-51). -/
def scoreNode (s : Scores) (node : Node) : Scores :=
  let label := pyLower node.label
  let shape := pyLower node.shape
  -- Step 1: shape-based identification
  let s :=
    if shape ∈ ["diamond", "parallelogram", "ellipse", "document", "offpageconnector"] then
      { s with fc := s.fc + 2 }
    else if shape ∈ ["rectangle", "roundrectangle"] then
      { s with fc := s.fc + 1, uml := s.uml + 1 }
    else if shape = "hexagon" then
      { s with act := s.act + 2 }
    else s
  -- Step 2: keyword matching
  let s := if anyKw label flowchart_keywords then { s with fc := s.fc + 2 } else s
  let s := if anyKw label uml_keywords then { s with uml := s.uml + 2 } else s
  let s := if anyKw label sequence_keywords then { s with seq := s.seq + 2 } else s
  let s := if anyKw label er_keywords then { s with er := s.er + 2 } else s
  let s := if anyKw label activity_keywords then { s with act := s.act + 2 } else s
  -- Step 3: label structure hints (UML)
  let s :=
    if containsSub label "::" ||
        (containsSub label "class" && containsSub label "\x7b" && containsSub label "\x7d") then
      { s with uml := s.uml + 3 }
    else s
  let s :=
    if containsSub label "(" && containsSub label ")" && containsSub label ":" then
      { s with uml := s.uml + 2 }
    else s
  s

/-- The accumulated scores over all nodes. -/
def classifierScores (nodes : List Node) : Scores :=
  nodes.foldl scoreNode {}

/-- The `scores.items()` list, in dict insertion order. -/
def scoreItems (s : Scores) : List (String × Nat) :=
  [("UML Class Diagram", s.uml), ("Flowchart", s.fc),
   ("UML Sequence Diagram", s.seq), ("ER Diagram", s.er),
   ("UML Activity Diagram", s.act)]

/-- Python `max(items, key=...)`: the first item whose value is maximal
(later items replace the best only when strictly greater). -/
def firstMax (items : List (String × Nat)) : String × Nat :=
  match items with
  | [] => ("", 0)
  | i :: rest => rest.foldl (fun best x => if x.2 > best.2 then x else best) i

/-- Insertion into a descending-sorted list, for Python
`sorted(values, reverse=True)`. -/
def insertDesc (n : Nat) : List Nat → List Nat
  | [] => [n]
  | m :: rest => if n ≥ m then n :: m :: rest else m :: insertDesc n rest

/-- Python `sorted(values, reverse=True)` on a list of ints. -/
def sortDesc (l : List Nat) : List Nat :=
  l.foldr insertDesc []

/-- The classifier decision (`diagram_type.py` lines 53-70). -/
def classify_diagram_type (nodes : List Node) : String :=
  let scores := classifierScores nodes
  let top := firstMax (scoreItems scores)
  let top_type := top.1
  let top_score := top.2
  let second_score := (sortDesc ((scoreItems scores).map Prod.snd)).getD 1 0
  if top_score = 0 then "Unknown"
  else if top_type = "UML Class Diagram" && scores.fc > 2 &&
      top_score - scores.fc ≤ 1 then "Flowchart"
  else if top_score - second_score ≥ 2 then top_type
  else if top_score ≥ 4 then top_type
  else "Flowchart"

/-! ## Role classifier (`classifier/shape_label.py`) -/

/-- ASCII version of Python `str.isidentifier()`. -/
def pyIsIdentifier (s : String) : Bool :=
  match s.toList with
  | [] => false
  | c :: rest =>
    (c.isAlpha || c = '_') && rest.all (fun d => d.isAlphanum || d = '_')

/-- ASCII version of the Python regex test
`re.match(r"^\w+\(.*\)$", label)`: one or more word characters, a
literal open paren, any characters without a newline, a close paren at
the very end. -/
def methodSignature (label : String) : Bool :=
  let sp := label.toList.span (fun c => c.isAlphanum || c = '_')
  match sp.1, sp.2 with
  | [], _ => false
  | _ :: _, '(' :: rest =>
    match rest.getLast? with
    | some ')' => rest.dropLast.all (fun c => c ≠ '\n')
    | _ => false
  | _, _ => false

/-- The Flowchart rule cascade (`shape_label.py` lines 21-45). -/
def roleFlowchart (label shape : String) : String :=
  if shape ∈ ["ellipse", "terminator", "start1"] || containsSub label "start" then "Start"
  else if containsSub label "end" || containsSub label "stop" then "End"
  else if shape = "diamond" || containsSub label "?" ||
      anyKw label ["if", "check", "compare", "do", "can", "should", "else"] then "Decision"
  else if anyKw label ["repeat", "loop", "again", "while", "for"] then "Loop"
  else if shape ∈ ["parallelogram", "input", "document"] ||
      anyKw label ["input", "scan", "read", "enter"] then "Input"
  else if shape ∈ ["output", "display"] ||
      anyKw label ["print", "display", "output", "show"] then "Output"
  else if shape ∈ ["rectangle", "roundrectangle", "box"] then "Process"
  else if shape ∈ ["offpageconnector", "jump", "connector"] then "Jump"
  else
    if containsSub label "print" then "Output"
    else if containsSub label "input" || containsSub label "scan" then "Input"
    else "Process"

/-- The UML class diagram rule cascade (`shape_label.py` lines 48-62). -/
def roleUmlClass (label shape : String) : String :=
  if anyKw label ["<<interface>>", "<<abstract>>", "interface", "abstract"] then "Interface"
  else if pyStartsWith label "class" || containsSub label "class" then "Class"
  else if containsSub label "\x7b" && containsSub label "\x7d" then "Class"
  else if methodSignature label then "Method"
  else if containsSub label ":" || containsSub label "=" ||
      anyKw label ["int", "str", "float", "bool", "string", "boolean", "void"] then "Attribute"
  else if shape = "rectangle" && pyIsIdentifier label then "Attribute"
  else "Unknown UML Part"

/-- The sequence diagram rule cascade (`shape_label.py` lines 65-71). -/
def roleSequence (label : String) : String :=
  if containsSub label "lifeline" then "Lifeline"
  else if containsSub label "message" || containsSub label "-->" then "Message"
  else "Actor"

/-- The ER diagram rule cascade (`shape_label.py` lines 73-79); when no
rule fires the initial `role = "Unknown"` survives. -/
def roleER (label : String) : String :=
  if containsSub label "entity" then "Entity"
  else if containsSub label "attribute" then "Attribute"
  else if containsSub label "relation" || containsSub label "relationship" then "Relationship"
  else "Unknown"

/-- The activity diagram rule cascade (`shape_label.py` lines 81-89). -/
def roleActivity (label : String) : String :=
  if containsSub label "fork" then "Fork"
  else if containsSub label "join" then "Join"
  else if containsSub label "action" || containsSub label "activity" then "Action"
  else if containsSub label "swimlane" then "Swimlane"
  else "Unknown"

/-- Role of a single node under a given diagram type
(`shape_label.py` lines 15-91; the loop body assigning
`node_roles[node.id] = role`, with the per-type cascades factored into
the helpers above).  The pre-indexed `edge_label_map` built at lines
10-13 is never consulted by any rule, so it does not appear here. -/
def roleFor (diagram_type : String) (node : Node) : String :=
  let label := pyLower (pyTrim node.label)
  let shape := pyLower (pyTrim node.shape)
  if diagram_type = "Flowchart" then roleFlowchart label shape
  else if diagram_type = "UML Class Diagram" then roleUmlClass label shape
  else if diagram_type = "UML Sequence Diagram" then roleSequence label
  else if diagram_type = "ER Diagram" then roleER label
  else if diagram_type = "UML Activity Diagram" then roleActivity label
  else "Unknown"

/-- Python dict assignment `d[k] = v`: insertion order kept, the value of
an existing key is replaced in place. -/
def dictInsert : List (String × String) → String → String → List (String × String)
  | [], k, v => [(k, v)]
  | kv :: rest, k, v =>
    if kv.1 = k then (kv.1, v) :: rest else kv :: dictInsert rest k v

/-- The role map (`classify_node_roles`): one dict assignment per node in
list order.  The `edges` parameter of the Python function only feeds the
unused `edge_label_map`, so it is dropped. -/
def classify_node_roles (nodes : List Node) (diagram_type : String) :
    List (String × String) :=
  nodes.foldl (fun m n => dictInsert m n.id (roleFor diagram_type n)) []

/-! ## Graph traverser (`traverser/graph_traverser.py`)

The `while queue:` loop manipulates four pieces of state: the queue, the
`visited` set, the `order` list and the `visit_count` map.  `visited`
and `order` are always updated together, so `visited` is exactly the set
of elements of `order` and membership is tested on `order`.  The loop is
modelled with a fuel argument; `3 * edges.length + 1` fuel is provably
enough to drain the queue (theorem for claim C8), because every loop
iteration removes one queue entry and each pushed neighbour consumes one
of the at most `3 * |targets|` remaining visit allowances. -/

/-- The per-node test of the start-node heuristic (`find_start_node`
loop body, lines 10-14). -/
def isStartCandidate (node : Node) : Bool :=
  containsSub (pyLower node.label) "start" ||
    pyLower node.shape ∈ ["start1", "terminator", "ellipse"]

/-- Start-node heuristic (`find_start_node`, lines 8-15). -/
def find_start_node (nodes : List Node) : Option String :=
  match nodes.find? isStartCandidate with
  | some node => some node.id
  | none => (nodes.head?).map Node.id

/-- Adjacency from edges (`build_adjacency`, lines 18-24): targets of the
edges out of `s`, in edge order.  The `edge_labels` side map is unused
by the traversal. -/
def adjOf (edges : List Edge) (s : String) : List String :=
  (edges.filter (fun e => e.source = s)).map Edge.target

/-- The neighbour loop (lines 51-54): each neighbour with fewer than 3
recorded visits is appended to the queue and its count incremented. -/
def pushNeighbors : List String → List String → (String → Nat) →
    List String × (String → Nat)
  | [], queue, count => (queue, count)
  | n :: rest, queue, count =>
    if count n < 3 then
      pushNeighbors rest (queue ++ [n]) (Function.update count n (count n + 1))
    else
      pushNeighbors rest queue count

/-- The BFS loop (lines 44-54).  Returns the visit order, the final
visit counts and the leftover queue (empty whenever the fuel did not run
out; always empty for the fuel used by `traverseState`). -/
def bfsLoop (adj : String → List String) :
    Nat → List String → List String → (String → Nat) →
    List String × (String → Nat) × List String
  | 0, queue, order, count => (order, count, queue)
  | _ + 1, [], order, count => (order, count, [])
  | fuel + 1, current :: rest, order, count =>
    let order' := if current ∈ order then order else order ++ [current]
    let qc := pushNeighbors (adj current) rest count
    bfsLoop adj fuel qc.1 order' qc.2

/-- State of `traverse_graph` when the BFS loop has drained: visit
order, visit counts, leftover queue.  The Python guard
`if not start_node:` (line 36) is a truthiness test, satisfied both by
`None` and by an empty-string start id; either way the function returns
early with empty results. -/
def traverseState (nodes : List Node) (edges : List Edge) :
    List String × (String → Nat) × List String :=
  match find_start_node nodes with
  | none => ([], fun _ => 0, [])
  | some start =>
    if start = "" then ([], fun _ => 0, [])
    else bfsLoop (adjOf edges) (3 * edges.length + 1) [start] [] (fun _ => 0)

/-- Node ids never admitted by the BFS (lines 56-60): the set difference
`all_node_ids - set(order)`, realised here in first-occurrence order. -/
def unreachableIds (nodes : List Node) (edges : List Edge) : List String :=
  ((nodes.map Node.id).dedup).filter
    (fun i => decide (i ∉ (traverseState nodes edges).1))

/-- `traverse_graph` (lines 27-65): BFS order with unreachable ids
appended, paired with the legacy all-"Unknown" role map.  The
`if not start_node:` truthiness guard (line 36) returns two empty
results both when no start node exists and when the chosen start id is
the empty (falsy) string. -/
def traverse_graph (nodes : List Node) (edges : List Edge) :
    List String × List (String × String) :=
  match find_start_node nodes with
  | none => ([], [])
  | some start =>
    if start = "" then ([], [])
    else
      ((traverseState nodes edges).1 ++ unreachableIds nodes edges,
       nodes.foldl (fun m n => dictInsert m n.id "Unknown") [])

/-! ## Flow interpreter (`interpreter/interpreter.py`)

The logic-template table is the content of the optional
`logic_templates.json` resource; `load_logic_templates` degrades to an
empty table when the file is absent (it is not part of the repository),
so the table is passed in as an explicit parameter and the concrete
scenarios use the empty table.

The recursive `visit_node` procedure is realised as a worklist loop:
calling `visit_node` on each child in order is the same as processing a
stack seeded with the children on top of the pending work, with the
visited-set test performed when an id is popped (exactly where the
Python function performs it on entry).  The loop carries fuel; every
iteration pops one stack entry, entries are pushed only on the first
visit of a node id and the pushed entries are that node's outgoing
edges, so the total number of pops is at most
`traversal_order.length + edges.length` and the fuel used by
`interpret_flowchart` can never run out. -/

structure TemplateEntry where
  keywords : List String
  logic : String
deriving DecidableEq, Repr

/-- The template table: role -> ordered entries (a parsed
`logic_templates.json`). -/
def Templates : Type := List (String × List TemplateEntry)

/-- One branch record of a decision step. -/
structure Branch where
  condition_label : String
  condition : String
  target_node_id : String
  target_label : String
deriving DecidableEq, Repr

/-- One execution-flow step.  `branches = none` and `next_id = none`
model the corresponding keys being absent from the Python dict. -/
structure Step where
  node_id : String
  label : String
  role : String
  type : String
  logic_template : Option String
  flow_type : String
  branches : Option (List Branch) := none
  next_id : Option String := none
deriving DecidableEq, Repr

/-- Annotated node of the output document (lines 59-66). -/
structure OutNode where
  id : String
  label : String
  shape : String
  role : String
deriving DecidableEq, Repr

/-- Edge of the output document (lines 67-73). -/
structure OutEdge where
  source_id : String
  target_id : String
  label : String
deriving DecidableEq, Repr

/-- The FlowchartDocument handed to the renderer. -/
structure FlowDoc where
  diagram_type : String
  nodes : List OutNode
  edges : List OutEdge
  execution_flow : List Step
deriving DecidableEq, Repr

/-- `match_template` (lines 16-36): an exact-keyword pass over the
role's entries, then a substring pass; `none` when neither fires. -/
def match_template (label role : String) (templates : Templates) : Option String :=
  let label_lower := pyLower label
  let role_templates := (List.lookup role templates).getD []
  let exact := role_templates.findSome? (fun entry =>
    if entry.keywords.any (fun kw => label_lower = pyLower kw) then
      some entry.logic
    else none)
  match exact with
  | some logic => some logic
  | none =>
    role_templates.findSome? (fun entry =>
      if entry.keywords.any (fun kw => containsSub label_lower (pyLower kw)) then
        some entry.logic
      else none)

/-- Python dict `.get` on an association list built with `dictInsert`
(unique keys): the first binding of the key. -/
def dictGetD (m : List (String × String)) (k dflt : String) : String :=
  (List.lookup k m).getD dflt

/-- The edge map `next_map` (lines 49-54): for a source id, the ordered
list of (target id, lowercased trimmed label) pairs of its outgoing
edges. -/
def nextMapOf (edges : List Edge) (s : String) : List (String × String) :=
  (edges.filter (fun e => e.source = s)).map
    (fun e => (e.target, pyLower (pyTrim e.label)))

/-- The `id_to_node` dict (line 46): on duplicate ids the last node
wins, as in the Python dict comprehension. -/
def idToNode (nodes : List Node) (nid : String) : Option Node :=
  nodes.reverse.find? (fun n => n.id = nid)

/-- Normalisation of a decision-branch condition (lines 115-120). -/
def normalizeCond (raw : String) : String :=
  if raw ∈ ["yes", "true", "y"] then "yes"
  else if raw ∈ ["no", "false", "n"] then "no"
  else ""

/-- The `next_id` computation (lines 139-141): present exactly when the
node has one outgoing edge and its lowercased role is neither
"decision" nor "end", holding that single edge's target id. -/
def nextIdFor (role_lower : String) (next_nodes : List (String × String)) :
    Option String :=
  match next_nodes with
  | [single] =>
    if role_lower = "decision" ∨ role_lower = "end" then none
    else some single.1
  | _ => none

/-- The branch list of a decision step (lines 111-127): one record per
outgoing edge whose target id resolves to a node; edges to missing
targets are silently skipped by the `if target:` test. -/
def branchRecordsFor (nodes : List Node) (next_nodes : List (String × String)) :
    List Branch :=
  next_nodes.filterMap (fun out =>
    match idToNode nodes out.1 with
    | some target =>
      some { condition_label := out.2, condition := normalizeCond out.2,
             target_node_id := out.1, target_label := pyTrim target.label }
    | none => none)

/-- The step record built for a found node (lines 88-141). -/
def buildStep (templates : Templates) (nodes : List Node) (edges : List Edge)
    (roles : List (String × String)) (node : Node) : Step :=
  let label := pyTrim node.label
  let role := dictGetD roles node.id "Unknown"
  let shape := pyTrim node.shape
  let next_nodes := nextMapOf edges node.id
  let logic := match_template label role templates
  let role_lower := pyLower role
  let flow_type :=
    if role_lower = "start" then "start"
    else if role_lower = "end" then "end"
    else if role_lower = "decision" then "decision"
    else if role_lower = "loop" then "loop"
    else if role_lower ∈ ["input", "output", "process", "task"] then role_lower
    else if role_lower = "jump" then "jump"
    else if role_lower ∈ ["class", "interface", "method", "attribute"] then "uml_element"
    else "generic_action"
  let branches : Option (List Branch) :=
    if role_lower = "decision" then some (branchRecordsFor nodes next_nodes)
    else none
  let next_id : Option String := nextIdFor role_lower next_nodes
  { node_id := node.id, label := label, role := role, type := shape,
    logic_template := logic, flow_type := flow_type,
    branches := branches, next_id := next_id }

/-- The `visit_node` recursion (lines 79-151) as a fuelled worklist
loop over (visited ids, emitted steps). -/
def visitStack (templates : Templates) (nodes : List Node) (edges : List Edge)
    (roles : List (String × String)) :
    Nat → List String → List String × List Step → List String × List Step
  | 0, _, st => st
  | _ + 1, [], st => st
  | fuel + 1, nid :: rest, st =>
    if nid ∈ st.1 then
      visitStack templates nodes edges roles fuel rest st
    else
      match idToNode nodes nid with
      | none => visitStack templates nodes edges roles fuel rest (nid :: st.1, st.2)
      | some node =>
        let step := buildStep templates nodes edges roles node
        visitStack templates nodes edges roles fuel
          ((nextMapOf edges node.id).map Prod.fst ++ rest)
          (nid :: st.1, st.2 ++ [step])

/-- `interpret_flowchart` (lines 38-153). -/
def interpret_flowchart (templates : Templates) (nodes : List Node)
    (edges : List Edge) (roles : List (String × String))
    (traversal_order : List String) (diagram_type : String) : FlowDoc :=
  let flow := (visitStack templates nodes edges roles
      (traversal_order.length + edges.length + 1) traversal_order ([], [])).2
  { diagram_type := diagram_type,
    nodes := nodes.map (fun n =>
      { id := n.id, label := pyTrim n.label, shape := pyTrim n.shape,
        role := dictGetD roles n.id "Unknown" }),
    edges := edges.map (fun e =>
      { source_id := e.source, target_id := e.target, label := pyTrim e.label }),
    execution_flow := flow }

/-- Vocabulary of roles the specification declares legal for each
diagram type (spec sections 3 and 4.3), together with the "Unknown"
sentinel.  This definition follows the spec's words; the theorems for
claim C6 compare the code's role classifier against it. -/
def legalRoles (dt : String) : List String :=
  (if dt = "Flowchart" then
      ["Start", "End", "Decision", "Loop", "Input", "Output", "Process", "Jump"]
    else if dt = "UML Class Diagram" then
      ["Interface", "Class", "Method", "Attribute", "Unknown UML Part"]
    else if dt = "UML Sequence Diagram" then ["Lifeline", "Message", "Actor"]
    else if dt = "ER Diagram" then ["Entity", "Attribute", "Relationship"]
    else if dt = "UML Activity Diagram" then ["Fork", "Join", "Action", "Swimlane"]
    else []) ++ ["Unknown"]

/-! # Theorems -/

/-! ## Claim C4 (Graph Loader metadata) -/

/-- C4: the claim states that every parsed node's metadata records the
raw derived shape and the raw configuration string regardless of which
shape branch fired.  The code violates this: the local variable
`generic` is assigned only inside the `if not shape:` branch, so for a
document whose first node takes its shape from an explicit shape-type
attribute, line 84 reads an unassigned variable, the node loop raises
`NameError`, the catch-all handler fires and the whole parse degrades to
two empty lists — no node (and no metadata) is produced at all.  This
theorem evaluates the embedded code at that failing input. -/
theorem claim_C4_bug_eval :
    parse_graphml_core
        (some ⟨some ([⟨some "n1", none, some "ellipse", none, none⟩], [])⟩) =
      .error PyErr.nameErr ∧
    parse_graphml
        (some ⟨some ([⟨some "n1", none, some "ellipse", none, none⟩], [])⟩) =
      ([], []) := by
  exact ⟨rfl, rfl⟩

/-! ## Claim C5 (loader never propagates) -/

/-- C5: for every input document, `parse_graphml` returns two empty
sequences both when the graph root is missing and when any exception is
raised while the document is being parsed; the exception is never
propagated to the caller. -/
theorem claim_C5_no_propagation (input : Option XmlDoc) :
    (∀ doc, input = some doc → doc.graph = none →
      parse_graphml input = ([], [])) ∧
    (∀ e, parse_graphml_core input = .error e →
      parse_graphml input = ([], [])) := by
  constructor
  · rintro doc rfl hg
    simp only [parse_graphml, parse_graphml_core, hg]
    rfl
  · intro e he
    simp [parse_graphml, he]

/-- Witness for C5: a concrete document without a graph root, and a
concrete unparseable input (whose core raises), both map to two empty
lists. -/
theorem claim_C5_witness :
    parse_graphml (some ⟨none⟩) = ([], []) ∧ parse_graphml none = ([], []) :=
  ⟨(claim_C5_no_propagation (some ⟨none⟩)).1 ⟨none⟩ rfl rfl,
   (claim_C5_no_propagation none).2 PyErr.parseErr rfl⟩

/-! ## Claim C2 (four-node scenario) -/

/-- C2, counterexample: in the four-node scenario the claim asserts role
Output for n3 and role End for n4.  The role cascade tests the Input
shapes (n3 has shape parallelogram) before any Output rule can see the
"print" label, and tests the Start shapes (n4 has shape ellipse) before
the End rule can see the "end" label, so the computed roles are Input
and Start. -/
theorem claim_C2_cex :
    List.lookup "n3" (classify_node_roles
      [mkNode "n1" "Start" "ellipse", mkNode "n2" "Input Value" "parallelogram",
       mkNode "n3" "Print Result" "parallelogram", mkNode "n4" "End" "ellipse"]
      "Flowchart") = some "Input" ∧
    List.lookup "n4" (classify_node_roles
      [mkNode "n1" "Start" "ellipse", mkNode "n2" "Input Value" "parallelogram",
       mkNode "n3" "Print Result" "parallelogram", mkNode "n4" "End" "ellipse"]
      "Flowchart") = some "Start" ∧
    some "Input" ≠ some "Output" ∧ some "Start" ≠ some "End" := by
  refine ⟨rfl, rfl, by decide, by decide⟩

/-- C2, amended: the classifier returns Flowchart; the role map is
{n1: Start, n2: Input, n3: Input, n4: Start}; execution_flow has exactly
4 steps in order n1, n2, n3, n4, each step except n4 carrying a next_id
pointing to the next node in the chain. -/
theorem claim_C2_amended :
    classify_diagram_type
      [mkNode "n1" "Start" "ellipse", mkNode "n2" "Input Value" "parallelogram",
       mkNode "n3" "Print Result" "parallelogram", mkNode "n4" "End" "ellipse"] =
      "Flowchart" ∧
    classify_node_roles
      [mkNode "n1" "Start" "ellipse", mkNode "n2" "Input Value" "parallelogram",
       mkNode "n3" "Print Result" "parallelogram", mkNode "n4" "End" "ellipse"]
      "Flowchart" =
      [("n1", "Start"), ("n2", "Input"), ("n3", "Input"), ("n4", "Start")] ∧
    (interpret_flowchart []
      [mkNode "n1" "Start" "ellipse", mkNode "n2" "Input Value" "parallelogram",
       mkNode "n3" "Print Result" "parallelogram", mkNode "n4" "End" "ellipse"]
      [⟨"n1", "n2", ""⟩, ⟨"n2", "n3", ""⟩, ⟨"n3", "n4", ""⟩]
      (classify_node_roles
        [mkNode "n1" "Start" "ellipse", mkNode "n2" "Input Value" "parallelogram",
         mkNode "n3" "Print Result" "parallelogram", mkNode "n4" "End" "ellipse"]
        "Flowchart")
      (traverse_graph
        [mkNode "n1" "Start" "ellipse", mkNode "n2" "Input Value" "parallelogram",
         mkNode "n3" "Print Result" "parallelogram", mkNode "n4" "End" "ellipse"]
        [⟨"n1", "n2", ""⟩, ⟨"n2", "n3", ""⟩, ⟨"n3", "n4", ""⟩]).1
      "Flowchart").execution_flow.map (fun s => (s.node_id, s.next_id)) =
      [("n1", some "n2"), ("n2", some "n3"), ("n3", some "n4"), ("n4", none)] := by
  refine ⟨rfl, rfl, rfl⟩

/-! ## Claim C3 (UML brace scenario) -/

/-- C3, counterexample: the claim asserts that the diagram type for the
single node labelled "UserAccount { id: int, name: str }" with shape
roundrectangle resolves to UML Class Diagram; the classifier actually
returns Flowchart, because the brace-plus-class structural rule
requires the substring "class" in the label, which "UserAccount ..."
does not contain. -/
theorem claim_C3_cex :
    classify_diagram_type
      [mkNode "u1" "UserAccount { id: int, name: str }" "roundrectangle"] =
      "Flowchart" ∧ ("Flowchart" : String) ≠ "UML Class Diagram" := by
  refine ⟨rfl, by decide⟩

/-- C3, amended: the brace-plus-class structural rule does not fire for
this label (no "class" substring), so UML-Class ends at +1 from the
roundrectangle shape, tied with Flowchart's +1; the tie falls through to
the ambiguous-diagram default and the type resolves to Flowchart, under
which the node's role resolves to Process. -/
theorem claim_C3_amended :
    classifierScores
      [mkNode "u1" "UserAccount { id: int, name: str }" "roundrectangle"] =
      { uml := 1, fc := 1, seq := 0, er := 0, act := 0 } ∧
    classify_diagram_type
      [mkNode "u1" "UserAccount { id: int, name: str }" "roundrectangle"] =
      "Flowchart" ∧
    classify_node_roles
      [mkNode "u1" "UserAccount { id: int, name: str }" "roundrectangle"]
      (classify_diagram_type
        [mkNode "u1" "UserAccount { id: int, name: str }" "roundrectangle"]) =
      [("u1", "Process")] := by
  refine ⟨rfl, rfl, rfl⟩

/-! ## Claim C6 (role-map invariants) -/

theorem dictInsert_fst_mem (m : List (String × String)) (k v k' : String) :
    k' ∈ (dictInsert m k v).map Prod.fst ↔ k' ∈ m.map Prod.fst ∨ k' = k := by
  induction m with
  | nil => simp [dictInsert]
  | cons kv rest ih =>
    by_cases h : kv.1 = k
    · simp only [dictInsert]
      rw [if_pos h]
      simp only [List.map_cons, List.mem_cons, h]
      tauto
    · simp only [dictInsert]
      rw [if_neg h]
      simp only [List.map_cons, List.mem_cons, ih]
      tauto

theorem dictInsert_fst_nodup (m : List (String × String)) (k v : String)
    (h : (m.map Prod.fst).Nodup) : ((dictInsert m k v).map Prod.fst).Nodup := by
  induction m with
  | nil => simp [dictInsert]
  | cons kv rest ih =>
    simp only [List.map_cons, List.nodup_cons] at h
    by_cases hk : kv.1 = k
    · simp only [dictInsert]
      rw [if_pos hk]
      simp only [List.map_cons, List.nodup_cons]
      exact h
    · simp only [dictInsert]
      rw [if_neg hk]
      simp only [List.map_cons, List.nodup_cons]
      refine ⟨fun hmem => ?_, ih h.2⟩
      rcases (dictInsert_fst_mem rest k v kv.1).1 hmem with h1 | h1
      · exact h.1 h1
      · exact hk h1

theorem dictInsert_mem_orig (m : List (String × String)) (k v : String) :
    ∀ p ∈ dictInsert m k v, p ∈ m ∨ p.2 = v := by
  induction m with
  | nil => simp [dictInsert]
  | cons kv rest ih =>
    intro p hp
    by_cases h : kv.1 = k
    · simp only [dictInsert] at hp
      rw [if_pos h] at hp
      simp only [List.mem_cons] at hp
      rcases hp with hp | hp
      · right; rw [hp]
      · left; exact List.mem_cons_of_mem _ hp
    · simp only [dictInsert] at hp
      rw [if_neg h] at hp
      simp only [List.mem_cons] at hp
      rcases hp with hp | hp
      · left; rw [hp]; exact List.mem_cons_self _ _
      · rcases ih p hp with h1 | h1
        · exact Or.inl (List.mem_cons_of_mem _ h1)
        · exact Or.inr h1

theorem rolesFold_fst_mem (dt : String) (nodes : List Node) :
    ∀ (m : List (String × String)) (k' : String),
      (k' ∈ ((nodes.foldl (fun m n => dictInsert m n.id (roleFor dt n)) m).map
        Prod.fst)) ↔ k' ∈ m.map Prod.fst ∨ k' ∈ nodes.map Node.id := by
  induction nodes with
  | nil => simp
  | cons n rest ih =>
    intro m k'
    simp only [List.foldl_cons, List.map_cons, List.mem_cons]
    rw [ih, dictInsert_fst_mem]
    tauto

theorem rolesFold_fst_nodup (dt : String) (nodes : List Node) :
    ∀ (m : List (String × String)), (m.map Prod.fst).Nodup →
      ((nodes.foldl (fun m n => dictInsert m n.id (roleFor dt n)) m).map
        Prod.fst).Nodup := by
  induction nodes with
  | nil => intro m h; exact h
  | cons n rest ih =>
    intro m h
    exact ih _ (dictInsert_fst_nodup m n.id _ h)

theorem rolesFold_snd (dt : String) (nodes : List Node) :
    ∀ (m : List (String × String)) (p : String × String),
      p ∈ nodes.foldl (fun m n => dictInsert m n.id (roleFor dt n)) m →
      p ∈ m ∨ ∃ n ∈ nodes, p.2 = roleFor dt n := by
  induction nodes with
  | nil => intro m p hp; exact Or.inl hp
  | cons n rest ih =>
    intro m p hp
    rcases ih _ p hp with h1 | h1
    · rcases dictInsert_mem_orig m n.id _ p h1 with h2 | h2
      · exact Or.inl h2
      · exact Or.inr ⟨n, List.mem_cons_self _ _, h2⟩
    · rcases h1 with ⟨n', hn', h2⟩
      exact Or.inr ⟨n', List.mem_cons_of_mem _ hn', h2⟩

set_option maxHeartbeats 2000000 in
theorem roleFlowchart_mem (l s : String) :
    roleFlowchart l s ∈ legalRoles "Flowchart" := by
  unfold roleFlowchart
  split_ifs <;> decide

set_option maxHeartbeats 2000000 in
theorem roleUmlClass_mem (l s : String) :
    roleUmlClass l s ∈ legalRoles "UML Class Diagram" := by
  unfold roleUmlClass
  split_ifs <;> decide

set_option maxHeartbeats 1000000 in
theorem roleSequence_mem (l : String) :
    roleSequence l ∈ legalRoles "UML Sequence Diagram" := by
  unfold roleSequence
  split_ifs <;> decide

set_option maxHeartbeats 1000000 in
theorem roleER_mem (l : String) : roleER l ∈ legalRoles "ER Diagram" := by
  unfold roleER
  split_ifs <;> decide

set_option maxHeartbeats 1000000 in
theorem roleActivity_mem (l : String) :
    roleActivity l ∈ legalRoles "UML Activity Diagram" := by
  unfold roleActivity
  split_ifs <;> decide

theorem roleFor_mem_legal (dt : String) (n : Node) :
    roleFor dt n ∈ legalRoles dt := by
  by_cases h1 : dt = "Flowchart"
  · subst h1; exact roleFlowchart_mem _ _
  by_cases h2 : dt = "UML Class Diagram"
  · subst h2; exact roleUmlClass_mem _ _
  by_cases h3 : dt = "UML Sequence Diagram"
  · subst h3; exact roleSequence_mem _
  by_cases h4 : dt = "ER Diagram"
  · subst h4; exact roleER_mem _
  by_cases h5 : dt = "UML Activity Diagram"
  · subst h5; exact roleActivity_mem _
  · simp only [roleFor, legalRoles, if_neg h1, if_neg h2, if_neg h3, if_neg h4,
      if_neg h5]
    decide

/-- C6, counterexample: the claim asserts that under the Sequence type a
node matching none of the type's keywords receives the explicit role
"Unknown"; the cascade's else branch actually assigns "Actor" to such
nodes (here a node with an empty label). -/
theorem claim_C6_cex :
    classify_node_roles [mkNode "x" "" ""] "UML Sequence Diagram" =
      [("x", "Actor")] ∧ ("Actor" : String) ≠ "Unknown" := by
  refine ⟨rfl, by decide⟩

/-- C6, amended: for every node list and diagram type,
`classify_node_roles` returns a mapping with exactly one entry per node
id (keys are exactly the node ids, without duplicates), each role drawn
from the vocabulary legal for that diagram type or an Unknown sentinel;
under the ER and Activity types a node matching none of the type's
keywords receives the explicit role "Unknown", while under the Sequence
type such a node receives the cascade's default role "Actor". -/
theorem claim_C6_amended (nodes : List Node) (dt : String) :
    ((classify_node_roles nodes dt).map Prod.fst).Nodup ∧
    (∀ k, k ∈ (classify_node_roles nodes dt).map Prod.fst ↔
      k ∈ nodes.map Node.id) ∧
    (∀ p ∈ classify_node_roles nodes dt, p.2 ∈ legalRoles dt) ∧
    (∀ n : Node,
      (containsSub (pyLower (pyTrim n.label)) "entity" = false →
       containsSub (pyLower (pyTrim n.label)) "attribute" = false →
       containsSub (pyLower (pyTrim n.label)) "relation" = false →
       containsSub (pyLower (pyTrim n.label)) "relationship" = false →
       roleFor "ER Diagram" n = "Unknown") ∧
      (containsSub (pyLower (pyTrim n.label)) "fork" = false →
       containsSub (pyLower (pyTrim n.label)) "join" = false →
       containsSub (pyLower (pyTrim n.label)) "action" = false →
       containsSub (pyLower (pyTrim n.label)) "activity" = false →
       containsSub (pyLower (pyTrim n.label)) "swimlane" = false →
       roleFor "UML Activity Diagram" n = "Unknown") ∧
      (containsSub (pyLower (pyTrim n.label)) "lifeline" = false →
       containsSub (pyLower (pyTrim n.label)) "message" = false →
       containsSub (pyLower (pyTrim n.label)) "-->" = false →
       roleFor "UML Sequence Diagram" n = "Actor")) := by
  refine ⟨?_, ?_, ?_, ?_⟩
  · exact rolesFold_fst_nodup dt nodes [] (by simp)
  · intro k
    rw [classify_node_roles, rolesFold_fst_mem]
    simp
  · intro p hp
    rcases rolesFold_snd dt nodes [] p hp with h | ⟨n, _, h⟩
    · simp at h
    · rw [h]; exact roleFor_mem_legal dt n
  · intro n
    refine ⟨fun h1 h2 h3 h4 => ?_, fun h1 h2 h3 h4 h5 => ?_, fun h1 h2 h3 => ?_⟩
    · show roleER (pyLower (pyTrim n.label)) = "Unknown"
      simp [roleER, h1, h2, h3, h4]
    · show roleActivity (pyLower (pyTrim n.label)) = "Unknown"
      simp [roleActivity, h1, h2, h3, h4, h5]
    · show roleSequence (pyLower (pyTrim n.label)) = "Actor"
      simp [roleSequence, h1, h2, h3]

/-- Witness for C6: the amended theorem applied to a concrete one-node
list under the ER type; the hypotheses of the default clause are
discharged on the concrete label "zzz". -/
theorem claim_C6_witness :
    (∀ k, k ∈ (classify_node_roles [mkNode "x" "zzz" ""] "ER Diagram").map
      Prod.fst ↔ k ∈ [mkNode "x" "zzz" ""].map Node.id) ∧
    roleFor "ER Diagram" (mkNode "x" "zzz" "") = "Unknown" :=
  ⟨(claim_C6_amended [mkNode "x" "zzz" ""] "ER Diagram").2.1,
   ((claim_C6_amended [mkNode "x" "zzz" ""] "ER Diagram").2.2.2
      (mkNode "x" "zzz" "")).1 rfl rfl rfl rfl⟩

/-! ## Claims C1 and C8 (traversal) — BFS loop lemmas -/

theorem pushNeighbors_queue_mem :
    ∀ (ns queue : List String) (count : String → Nat) (x : String),
      x ∈ (pushNeighbors ns queue count).1 → x ∈ queue ∨ x ∈ ns := by
  intro ns
  induction ns with
  | nil => intro queue count x hx; exact Or.inl hx
  | cons n rest ih =>
    intro queue count x hx
    simp only [pushNeighbors] at hx
    by_cases h : count n < 3
    · rw [if_pos h] at hx
      rcases ih _ _ x hx with h1 | h1
      · rcases List.mem_append.1 h1 with h2 | h2
        · exact Or.inl h2
        · simp only [List.mem_singleton] at h2
          exact Or.inr (by simp [h2])
      · exact Or.inr (List.mem_cons_of_mem _ h1)
    · rw [if_neg h] at hx
      rcases ih _ _ x hx with h1 | h1
      · exact Or.inl h1
      · exact Or.inr (List.mem_cons_of_mem _ h1)

theorem pushNeighbors_count_le :
    ∀ (ns queue : List String) (count : String → Nat),
      (∀ y, count y ≤ 3) → ∀ y, (pushNeighbors ns queue count).2 y ≤ 3 := by
  intro ns
  induction ns with
  | nil => intro q c h y; exact h y
  | cons n rest ih =>
    intro q c h y
    simp only [pushNeighbors]
    by_cases hn : c n < 3
    · rw [if_pos hn]
      refine ih _ _ (fun z => ?_) y
      by_cases hz : z = n
      · subst hz; rw [Function.update_same]; omega
      · rw [Function.update_noteq hz]; exact h z
    · rw [if_neg hn]; exact ih _ _ h y

theorem pushNeighbors_measure (T : Finset String) :
    ∀ (ns queue : List String) (count : String → Nat), (∀ n ∈ ns, n ∈ T) →
      (pushNeighbors ns queue count).1.length +
        ∑ t in T, (3 - (pushNeighbors ns queue count).2 t) ≤
      queue.length + ∑ t in T, (3 - count t) := by
  intro ns
  induction ns with
  | nil => intro q c _; simp [pushNeighbors]
  | cons n rest ih =>
    intro q c h
    simp only [pushNeighbors]
    by_cases hn : c n < 3
    · rw [if_pos hn]
      have hnT : n ∈ T := h n (List.mem_cons_self _ _)
      have hrec := ih (q ++ [n]) (Function.update c n (c n + 1))
        (fun m hm => h m (List.mem_cons_of_mem _ hm))
      have hfun : (fun t => 3 - Function.update c n (c n + 1) t) =
          Function.update (fun t => 3 - c t) n (3 - (c n + 1)) := by
        funext t
        by_cases ht : t = n
        · subst ht; rw [Function.update_same, Function.update_same]
        · rw [Function.update_noteq ht, Function.update_noteq ht]
      have hsum : ∑ t in T, (3 - Function.update c n (c n + 1) t) + 1 =
          ∑ t in T, (3 - c t) := by
        calc ∑ t in T, (3 - Function.update c n (c n + 1) t) + 1
            = ∑ t in T, Function.update (fun t => 3 - c t) n (3 - (c n + 1)) t + 1 := by
              rw [show ∀ g : String → Nat, (∑ t in T, g t) = T.sum g from fun g => rfl]
              rw [← hfun]
          _ = (3 - (c n + 1)) + (∑ t in T \ {n}, (3 - c t)) + 1 := by
              rw [Finset.sum_update_of_mem hnT]
          _ = ∑ t in T \ {n}, (3 - c t) + (3 - c n) := by omega
          _ = ∑ t in T, (3 - c t) := by
              rw [← Finset.sum_eq_sum_diff_singleton_add hnT]
      rw [List.length_append] at hrec
      simp only [List.length_cons, List.length_nil] at hrec
      omega
    · rw [if_neg hn]
      have hrec := ih q c (fun m hm => h m (List.mem_cons_of_mem _ hm))
      omega

theorem bfsLoop_order_mem (adj : String → List String) (allowed : List String)
    (hadj : ∀ s t, t ∈ adj s → t ∈ allowed) :
    ∀ (fuel : Nat) (queue order : List String) (count : String → Nat),
      (∀ x ∈ queue, x ∈ allowed) → (∀ x ∈ order, x ∈ allowed) →
      ∀ x ∈ (bfsLoop adj fuel queue order count).1, x ∈ allowed := by
  intro fuel
  induction fuel with
  | zero => intro q o c _ ho x hx; exact ho x hx
  | succ n ih =>
    intro q o c hq ho x hx
    cases q with
    | nil => exact ho x hx
    | cons current rest =>
      simp only [bfsLoop] at hx
      refine ih _ _ _ (fun y hy => ?_) (fun y hy => ?_) x hx
      · rcases pushNeighbors_queue_mem _ _ _ y hy with h1 | h1
        · exact hq y (List.mem_cons_of_mem _ h1)
        · exact hadj current y h1
      · by_cases hc : current ∈ o
        · rw [if_pos hc] at hy; exact ho y hy
        · rw [if_neg hc] at hy
          rcases List.mem_append.1 hy with h1 | h1
          · exact ho y h1
          · simp only [List.mem_singleton] at h1
            rw [h1]
            exact hq current (List.mem_cons_self _ _)

theorem bfsLoop_order_nodup (adj : String → List String) :
    ∀ (fuel : Nat) (queue order : List String) (count : String → Nat),
      order.Nodup → (bfsLoop adj fuel queue order count).1.Nodup := by
  intro fuel
  induction fuel with
  | zero => intro q o c ho; exact ho
  | succ n ih =>
    intro q o c ho
    cases q with
    | nil => exact ho
    | cons current rest =>
      simp only [bfsLoop]
      refine ih _ _ _ ?_
      by_cases hc : current ∈ o
      · rw [if_pos hc]; exact ho
      · rw [if_neg hc]
        rw [List.nodup_append]
        refine ⟨ho, List.nodup_singleton _, ?_⟩
        intro a ha hb
        simp only [List.mem_singleton] at hb
        subst hb
        exact hc ha

theorem bfsLoop_count_le (adj : String → List String) :
    ∀ (fuel : Nat) (queue order : List String) (count : String → Nat),
      (∀ y, count y ≤ 3) → ∀ y, (bfsLoop adj fuel queue order count).2.1 y ≤ 3 := by
  intro fuel
  induction fuel with
  | zero => intro q o c h y; exact h y
  | succ n ih =>
    intro q o c h y
    cases q with
    | nil => exact h y
    | cons current rest =>
      simp only [bfsLoop]
      exact ih _ _ _ (pushNeighbors_count_le _ _ _ h) y

theorem bfsLoop_drain (adj : String → List String) (T : Finset String)
    (hadj : ∀ s t, t ∈ adj s → t ∈ T) :
    ∀ (fuel : Nat) (queue order : List String) (count : String → Nat),
      queue.length + ∑ t in T, (3 - count t) ≤ fuel →
      (bfsLoop adj fuel queue order count).2.2 = [] := by
  intro fuel
  induction fuel with
  | zero =>
    intro q o c hm
    have hq : q = [] := List.eq_nil_of_length_eq_zero (by omega)
    subst hq
    rfl
  | succ n ih =>
    intro q o c hm
    cases q with
    | nil => rfl
    | cons current rest =>
      simp only [bfsLoop]
      refine ih _ _ _ ?_
      have hpush := pushNeighbors_measure T (adj current) rest c
        (fun m hm' => hadj current m hm')
      simp only [List.length_cons] at hm
      omega

theorem find_start_none (nodes : List Node) :
    find_start_node nodes = none → nodes = [] := by
  intro h
  cases nodes with
  | nil => rfl
  | cons n rest =>
    simp only [find_start_node] at h
    cases hf : (n :: rest).find? isStartCandidate with
    | some m => rw [hf] at h; exact absurd h (by simp)
    | none => rw [hf] at h; simp at h

theorem find_start_mem (nodes : List Node) (s : String) :
    find_start_node nodes = some s → s ∈ nodes.map Node.id := by
  intro h
  simp only [find_start_node] at h
  cases hf : nodes.find? isStartCandidate with
  | some m =>
    rw [hf] at h
    injection h with h
    subst h
    exact List.mem_map_of_mem _ (List.mem_of_find?_eq_some hf)
  | none =>
    rw [hf] at h
    cases nodes with
    | nil => simp at h
    | cons n rest =>
      simp only [List.head?_cons, Option.map_some'] at h
      injection h with h
      subst h
      exact List.mem_map_of_mem _ (List.mem_cons_self _ _)

theorem adjOf_mem_targets (edges : List Edge) (s t : String) :
    t ∈ adjOf edges s → t ∈ edges.map Edge.target := by
  intro ht
  simp only [adjOf, List.mem_map] at ht
  obtain ⟨e, he, rfl⟩ := ht
  exact List.mem_map_of_mem _ (List.mem_of_mem_filter he)

/-- C1, counterexample: the claim quantifies over any node list and edge
list, but an edge whose target id is not a node id makes the BFS admit
that id into the order, so the order has more entries than there are
nodes: one node "A" with an edge to the nonexistent "B" yields the
order ["A", "B"] of length 2. -/
theorem claim_C1_cex :
    (traverse_graph [mkNode "A" "" ""] [⟨"A", "B", ""⟩]).1 = ["A", "B"] ∧
    (traverse_graph [mkNode "A" "" ""] [⟨"A", "B", ""⟩]).1.length ≠
      ([mkNode "A" "" ""] : List Node).length := by
  refine ⟨rfl, by decide⟩

/-- C1, amended: provided the node ids are pairwise distinct and
nonempty (an empty start id trips the `if not start_node:` truthiness
guard and returns an empty order) and every edge's target id occurs
among the node ids, the traversal order returned by `traverse_graph`
has length equal to the number of nodes and is a permutation of the
node ids — no id duplicated, no id omitted — and it consists of the BFS
visit order from the chosen start node followed by the ids the BFS
never admitted. -/
theorem claim_C1_amended (nodes : List Node) (edges : List Edge)
    (hids : (nodes.map Node.id).Nodup)
    (hne : "" ∉ nodes.map Node.id)
    (htgt : ∀ e ∈ edges, e.target ∈ nodes.map Node.id) :
    (traverse_graph nodes edges).1.length = nodes.length ∧
    (traverse_graph nodes edges).1.Nodup ∧
    (∀ x, x ∈ (traverse_graph nodes edges).1 ↔ x ∈ nodes.map Node.id) ∧
    (traverse_graph nodes edges).1 =
      (traverseState nodes edges).1 ++ unreachableIds nodes edges ∧
    (∀ x ∈ unreachableIds nodes edges, x ∉ (traverseState nodes edges).1) := by
  have hunreach : ∀ x ∈ unreachableIds nodes edges,
      x ∈ nodes.map Node.id ∧ x ∉ (traverseState nodes edges).1 := by
    intro x hx
    simp only [unreachableIds, List.mem_filter, List.mem_dedup,
      decide_eq_true_eq] at hx
    exact hx
  cases hs : find_start_node nodes with
  | none =>
    have hnil : nodes = [] := find_start_none nodes hs
    subst hnil
    exact ⟨rfl, List.nodup_nil, fun x => by simp [traverse_graph, hs], rfl,
      fun x hx => by simp [unreachableIds] at hx⟩
  | some s =>
    have hsmem : s ∈ nodes.map Node.id := find_start_mem nodes s hs
    have hsne : s ≠ "" := fun h => hne (h ▸ hsmem)
    have hstate : (traverseState nodes edges).1 =
        (bfsLoop (adjOf edges) (3 * edges.length + 1) [s] [] (fun _ => 0)).1 := by
      simp only [traverseState, hs]
      rw [if_neg hsne]
    have hbfs_mem : ∀ x ∈ (traverseState nodes edges).1,
        x ∈ nodes.map Node.id := by
      rw [hstate]
      refine bfsLoop_order_mem (adjOf edges) (nodes.map Node.id)
        (fun s' t ht => ?_) _ _ _ _ (fun y hy => ?_) (fun y hy => ?_)
      · rcases List.mem_map.1 (adjOf_mem_targets edges s' t ht) with ⟨e, he, rfl⟩
        exact htgt e he
      · simp only [List.mem_singleton] at hy
        subst hy
        exact hsmem
      · simp at hy
    have hbfs_nodup : (traverseState nodes edges).1.Nodup := by
      rw [hstate]
      exact bfsLoop_order_nodup _ _ _ _ _ List.nodup_nil
    have horder : (traverse_graph nodes edges).1 =
        (traverseState nodes edges).1 ++ unreachableIds nodes edges := by
      simp only [traverse_graph, hs]
      rw [if_neg hsne]
    have hmemiff : ∀ x, x ∈ (traverse_graph nodes edges).1 ↔
        x ∈ nodes.map Node.id := by
      intro x
      rw [horder, List.mem_append]
      constructor
      · rintro (hx | hx)
        · exact hbfs_mem x hx
        · exact (hunreach x hx).1
      · intro hx
        by_cases hxb : x ∈ (traverseState nodes edges).1
        · exact Or.inl hxb
        · refine Or.inr ?_
          simp only [unreachableIds, List.mem_filter, List.mem_dedup,
            decide_eq_true_eq]
          exact ⟨hx, hxb⟩
    have hnodup : (traverse_graph nodes edges).1.Nodup := by
      rw [horder, List.nodup_append]
      refine ⟨hbfs_nodup, (List.nodup_dedup _).filter _, ?_⟩
      intro a ha hb
      exact (hunreach a hb).2 ha
    have hlen : (traverse_graph nodes edges).1.length = nodes.length := by
      have htf : (traverse_graph nodes edges).1.toFinset =
          (nodes.map Node.id).toFinset := by
        refine Finset.ext fun a => ?_
        rw [List.mem_toFinset, List.mem_toFinset]
        exact hmemiff a
      have h1 := List.toFinset_card_of_nodup hnodup
      have h2 := List.toFinset_card_of_nodup hids
      rw [← h1, htf, h2, List.length_map]
    exact ⟨hlen, hnodup, hmemiff, horder, fun x hx => (hunreach x hx).2⟩

/-- Witness for C1: the amended theorem applied to the concrete
two-node graph A -> B, whose ids are distinct and whose edge target is a
node id. -/
theorem claim_C1_witness :
    (traverse_graph [mkNode "A" "" "", mkNode "B" "" ""]
      [⟨"A", "B", ""⟩]).1.length =
      ([mkNode "A" "" "", mkNode "B" "" ""] : List Node).length ∧
    (traverse_graph [mkNode "A" "" "", mkNode "B" "" ""]
      [⟨"A", "B", ""⟩]).1.Nodup :=
  ⟨(claim_C1_amended [mkNode "A" "" "", mkNode "B" "" ""] [⟨"A", "B", ""⟩]
      (by decide) (by decide) (by decide)).1,
   (claim_C1_amended [mkNode "A" "" "", mkNode "B" "" ""] [⟨"A", "B", ""⟩]
      (by decide) (by decide) (by decide)).2.1⟩

/-- C8: for every finite graph the BFS loop drains its queue within the
fuel `traverse_graph` supplies (the loop terminates), every node's visit
counter stays at most 3, and on the concrete two-node cycle A -> B -> A
the traversal completes with order [A, B] and each node re-admitted into
the queue exactly 3 times. -/
theorem claim_C8_cycle_bound :
    (∀ (nodes : List Node) (edges : List Edge),
      (traverseState nodes edges).2.2 = [] ∧
      ∀ i, (traverseState nodes edges).2.1 i ≤ 3) ∧
    traverse_graph [mkNode "A" "" "", mkNode "B" "" ""]
        [⟨"A", "B", ""⟩, ⟨"B", "A", ""⟩] =
      (["A", "B"], [("A", "Unknown"), ("B", "Unknown")]) ∧
    (traverseState [mkNode "A" "" "", mkNode "B" "" ""]
        [⟨"A", "B", ""⟩, ⟨"B", "A", ""⟩]).2.1 "A" = 3 ∧
    (traverseState [mkNode "A" "" "", mkNode "B" "" ""]
        [⟨"A", "B", ""⟩, ⟨"B", "A", ""⟩]).2.1 "B" = 3 := by
  refine ⟨fun nodes edges => ?_, rfl, rfl, rfl⟩
  cases hs : find_start_node nodes with
  | none =>
    constructor
    · simp [traverseState, hs]
    · intro i
      simp [traverseState, hs]
  | some s =>
    by_cases hse : s = ""
    · constructor
      · simp [traverseState, hs, hse]
      · intro i
        simp [traverseState, hs, hse]
    have hstate : traverseState nodes edges =
        bfsLoop (adjOf edges) (3 * edges.length + 1) [s] [] (fun _ => 0) := by
      simp only [traverseState, hs]
      rw [if_neg hse]
    rw [hstate]
    constructor
    · refine bfsLoop_drain (adjOf edges) ((edges.map Edge.target).toFinset)
        (fun s' t ht => List.mem_toFinset.2 (adjOf_mem_targets edges s' t ht))
        _ _ _ _ ?_
      have hconst : ∑ t in (edges.map Edge.target).toFinset, (3 - 0) =
          (edges.map Edge.target).toFinset.card * 3 := by
        rw [Finset.sum_const, smul_eq_mul, Nat.mul_comm]
      have hcard : (edges.map Edge.target).toFinset.card ≤ edges.length := by
        calc (edges.map Edge.target).toFinset.card
            ≤ (edges.map Edge.target).length := List.toFinset_card_le _
          _ = edges.length := List.length_map _ _
      simp only [List.length_cons, List.length_nil]
      omega
    · exact bfsLoop_count_le _ _ _ _ _ (fun y => by omega)

/-! ## Claims C7, C9, C10 (interpreter) — step lemmas -/

theorem length_filterMap_isSome {α β : Type} (f : α → Option β) (l : List α) :
    (l.filterMap f).length = (l.filter (fun x => (f x).isSome)).length := by
  induction l with
  | nil => rfl
  | cons a rest ih =>
    cases hf : f a with
    | none => simp [List.filterMap_cons, List.filter_cons, hf, ih]
    | some b => simp [List.filterMap_cons, List.filter_cons, hf, ih]

theorem branchRecordsFor_length (nodes : List Node)
    (l : List (String × String)) :
    (branchRecordsFor nodes l).length =
      (l.filter (fun out => (idToNode nodes out.1).isSome)).length := by
  rw [branchRecordsFor, length_filterMap_isSome]
  congr 1
  apply List.filter_congr
  intro out _
  cases h : idToNode nodes out.1 <;> simp [h]

theorem branchRecordsFor_cond (nodes : List Node) (l : List (String × String)) :
    ∀ b ∈ branchRecordsFor nodes l, b.condition = normalizeCond b.condition_label := by
  intro b hb
  simp only [branchRecordsFor, List.mem_filterMap] at hb
  obtain ⟨out, _, hf⟩ := hb
  cases h : idToNode nodes out.1 with
  | none => rw [h] at hf; cases hf
  | some target =>
    rw [h] at hf
    injection hf with hf
    rw [← hf]

theorem normalizeCond_ne_iff (raw : String) :
    normalizeCond raw ≠ "" ↔ raw ∈ ["yes", "true", "y", "no", "false", "n"] := by
  have hsplit : raw ∈ (["yes", "true", "y", "no", "false", "n"] : List String) ↔
      raw ∈ (["yes", "true", "y"] : List String) ∨
        raw ∈ (["no", "false", "n"] : List String) := by
    simp only [List.mem_cons, List.not_mem_nil, or_false]
    tauto
  unfold normalizeCond
  by_cases h1 : raw ∈ (["yes", "true", "y"] : List String)
  · rw [if_pos h1]
    simp only [ne_eq, hsplit]
    exact ⟨fun _ => Or.inl h1, fun _ => by decide⟩
  · rw [if_neg h1]
    by_cases h2 : raw ∈ (["no", "false", "n"] : List String)
    · rw [if_pos h2]
      simp only [ne_eq, hsplit]
      exact ⟨fun _ => Or.inr h2, fun _ => by decide⟩
    · rw [if_neg h2]
      simp only [ne_eq, hsplit]
      constructor
      · intro h; exact absurd trivial h
      · rintro (h | h)
        · exact absurd h h1
        · exact absurd h h2

theorem nextIdFor_isSome_iff (rl : String) (l : List (String × String)) :
    (nextIdFor rl l).isSome = true ↔
      (l.length = 1 ∧ rl ≠ "decision" ∧ rl ≠ "end") := by
  cases l with
  | nil => simp [nextIdFor]
  | cons o rest =>
    cases rest with
    | nil =>
      by_cases hc : rl = "decision" ∨ rl = "end"
      · simp only [nextIdFor, if_pos hc, Option.isSome_none,
          Bool.false_eq_true, false_iff]
        rintro ⟨-, hd, he⟩
        rcases hc with hc | hc
        · exact hd hc
        · exact he hc
      · push_neg at hc
        simp only [nextIdFor, if_neg (show ¬(rl = "decision" ∨ rl = "end") by
            rintro (h | h)
            exacts [hc.1 h, hc.2 h]),
          Option.isSome_some, List.length_cons, List.length_nil, true_iff]
        exact ⟨by simp, hc.1, hc.2⟩
    | cons o2 rest2 =>
      simp only [nextIdFor, Option.isSome_none, Bool.false_eq_true, false_iff,
        List.length_cons]
      rintro ⟨hlen, -, -⟩
      omega

theorem nextIdFor_target (rl : String) (l : List (String × String)) :
    ∀ t, nextIdFor rl l = some t → l.map Prod.fst = [t] := by
  intro t ht
  cases l with
  | nil => simp [nextIdFor] at ht
  | cons o rest =>
    cases rest with
    | nil =>
      by_cases hc : rl = "decision" ∨ rl = "end"
      · rw [nextIdFor, if_pos hc] at ht
        cases ht
      · rw [nextIdFor, if_neg hc] at ht
        injection ht with ht
        rw [← ht]
        rfl
    | cons o2 rest2 => simp [nextIdFor] at ht

theorem idToNode_spec (nodes : List Node) (nid : String) (node : Node) :
    idToNode nodes nid = some node → node.id = nid ∧ node ∈ nodes := by
  intro h
  refine ⟨?_, List.mem_reverse.1 (List.mem_of_find?_eq_some h)⟩
  have := List.find?_some h
  simpa using this

theorem buildStep_props (templates : Templates) (nodes : List Node)
    (edges : List Edge) (roles : List (String × String)) (node : Node) :
    (pyLower (buildStep templates nodes edges roles node).role = "decision" →
      ∃ bs, (buildStep templates nodes edges roles node).branches = some bs ∧
        bs.length = ((nextMapOf edges
            (buildStep templates nodes edges roles node).node_id).filter
          (fun out => (idToNode nodes out.1).isSome)).length ∧
        ∀ b ∈ bs, (b.condition ≠ "" ↔
          b.condition_label ∈ ["yes", "true", "y", "no", "false", "n"])) ∧
    ((buildStep templates nodes edges roles node).next_id.isSome = true ↔
      ((nextMapOf edges
          (buildStep templates nodes edges roles node).node_id).length = 1 ∧
        pyLower (buildStep templates nodes edges roles node).role ≠ "decision" ∧
        pyLower (buildStep templates nodes edges roles node).role ≠ "end")) ∧
    (∀ t, (buildStep templates nodes edges roles node).next_id = some t →
      (nextMapOf edges
        (buildStep templates nodes edges roles node).node_id).map Prod.fst = [t]) := by
  have hrole : (buildStep templates nodes edges roles node).role =
      dictGetD roles node.id "Unknown" := rfl
  have hnid : (buildStep templates nodes edges roles node).node_id = node.id := rfl
  have hbranches : (buildStep templates nodes edges roles node).branches =
      (if pyLower (dictGetD roles node.id "Unknown") = "decision" then
        some (branchRecordsFor nodes (nextMapOf edges node.id)) else none) := rfl
  have hnext : (buildStep templates nodes edges roles node).next_id =
      nextIdFor (pyLower (dictGetD roles node.id "Unknown"))
        (nextMapOf edges node.id) := rfl
  refine ⟨?_, ?_, ?_⟩
  · intro hdec
    rw [hrole] at hdec
    rw [hbranches, if_pos hdec, hnid]
    refine ⟨_, rfl, branchRecordsFor_length nodes _, ?_⟩
    intro b hb
    rw [branchRecordsFor_cond nodes _ b hb]
    exact normalizeCond_ne_iff _
  · rw [hnext, hrole, hnid]
    exact nextIdFor_isSome_iff _ _
  · intro t ht
    rw [hnext] at ht
    rw [hnid]
    exact nextIdFor_target _ _ t ht

theorem visitStack_steps (templates : Templates) (nodes : List Node)
    (edges : List Edge) (roles : List (String × String)) (P : Step → Prop)
    (hbuild : ∀ node : Node, P (buildStep templates nodes edges roles node)) :
    ∀ (fuel : Nat) (stack : List String) (st : List String × List Step),
      (∀ s ∈ st.2, P s) →
      ∀ s ∈ (visitStack templates nodes edges roles fuel stack st).2, P s := by
  intro fuel
  induction fuel with
  | zero => intro stack st h s hs; exact h s hs
  | succ n ih =>
    intro stack st h s hs
    cases stack with
    | nil => exact h s hs
    | cons nid rest =>
      simp only [visitStack] at hs
      by_cases hv : nid ∈ st.1
      · rw [if_pos hv] at hs
        exact ih rest st h s hs
      · rw [if_neg hv] at hs
        cases hn : idToNode nodes nid with
        | none =>
          rw [hn] at hs
          exact ih rest (nid :: st.1, st.2) h s hs
        | some node =>
          rw [hn] at hs
          refine ih ((nextMapOf edges node.id).map Prod.fst ++ rest)
            (nid :: st.1, st.2 ++ [buildStep templates nodes edges roles node])
            (fun s' hs' => ?_) s hs
          rcases List.mem_append.1 hs' with h1 | h1
          · exact h s' h1
          · simp only [List.mem_singleton] at h1
            rw [h1]
            exact hbuild node

theorem visitStack_nodup (templates : Templates) (nodes : List Node)
    (edges : List Edge) (roles : List (String × String)) :
    ∀ (fuel : Nat) (stack visited : List String) (flow : List Step),
      (flow.map Step.node_id).Nodup →
      (∀ s ∈ flow, s.node_id ∈ visited ∧ s.node_id ∈ nodes.map Node.id) →
      (((visitStack templates nodes edges roles fuel stack
          (visited, flow)).2.map Step.node_id).Nodup ∧
        ∀ s ∈ (visitStack templates nodes edges roles fuel stack
          (visited, flow)).2,
          s.node_id ∈ (visitStack templates nodes edges roles fuel stack
            (visited, flow)).1 ∧ s.node_id ∈ nodes.map Node.id) := by
  intro fuel
  induction fuel with
  | zero => intro stack visited flow hnd hmem; exact ⟨hnd, hmem⟩
  | succ n ih =>
    intro stack visited flow hnd hmem
    cases stack with
    | nil => exact ⟨hnd, hmem⟩
    | cons nid rest =>
      simp only [visitStack]
      by_cases hv : nid ∈ visited
      · rw [if_pos hv]
        exact ih rest visited flow hnd hmem
      · rw [if_neg hv]
        cases hn : idToNode nodes nid with
        | none =>
          refine ih rest (nid :: visited) flow hnd (fun s hs => ?_)
          obtain ⟨h1, h2⟩ := hmem s hs
          exact ⟨List.mem_cons_of_mem _ h1, h2⟩
        | some node =>
          obtain ⟨hid, hinnodes⟩ := idToNode_spec nodes nid node hn
          refine ih ((nextMapOf edges node.id).map Prod.fst ++ rest)
            (nid :: visited)
            (flow ++ [buildStep templates nodes edges roles node]) ?_ ?_
          · rw [List.map_append]
            rw [List.nodup_append]
            refine ⟨hnd, by simp, ?_⟩
            intro a ha hb
            simp only [List.map_cons, List.map_nil, List.mem_singleton] at hb
            rw [hb, show (buildStep templates nodes edges roles node).node_id =
              node.id from rfl, hid] at ha
            rcases List.mem_map.1 ha with ⟨s', hs', hsid⟩
            have hmem' := (hmem s' hs').1
            rw [hsid] at hmem'
            exact hv hmem'
          · intro s hs
            rcases List.mem_append.1 hs with h1 | h1
            · obtain ⟨ha, hb⟩ := hmem s h1
              exact ⟨List.mem_cons_of_mem _ ha, hb⟩
            · simp only [List.mem_singleton] at h1
              rw [h1]
              constructor
              · rw [show (buildStep templates nodes edges roles node).node_id =
                  node.id from rfl, hid]
                exact List.mem_cons_self _ _
              · rw [show (buildStep templates nodes edges roles node).node_id =
                  node.id from rfl]
                exact List.mem_map_of_mem _ hinnodes

/-- C7, counterexample: the claim asserts that a decision step's
branches list has length equal to the node's outgoing-edge count; for a
decision node with one outgoing edge to the nonexistent id "ghost" the
interpreter's `if target:` test skips the branch, so the step carries
an empty branches list although the outgoing-edge count is 1. -/
theorem claim_C7_cex :
    (interpret_flowchart [] [mkNode "d" "x?" "diamond"] [⟨"d", "ghost", "yes"⟩]
      [("d", "Decision")] ["d"] "Flowchart").execution_flow.map
        (fun s => (s.role, s.branches)) = [("Decision", some [])] ∧
    (nextMapOf [⟨"d", "ghost", "yes"⟩] "d").length = 1 ∧ (0 : Nat) ≠ 1 := by
  refine ⟨rfl, rfl, by decide⟩

/-- C7, amended: every decision-role step carries a branches list whose
length equals the number of the node's outgoing edges whose target id
resolves to a node in the node list (edges to missing targets are
skipped), and each branch's condition is non-empty (normalised to yes or
no) if and only if the raw lowercased edge label is one of the six
recognised condition words. -/
theorem claim_C7_amended (templates : Templates) (nodes : List Node)
    (edges : List Edge) (roles : List (String × String))
    (traversal_order : List String) (dt : String) :
    ∀ s ∈ (interpret_flowchart templates nodes edges roles traversal_order
        dt).execution_flow,
      pyLower s.role = "decision" →
      ∃ bs, s.branches = some bs ∧
        bs.length = ((nextMapOf edges s.node_id).filter
          (fun out => (idToNode nodes out.1).isSome)).length ∧
        ∀ b ∈ bs, (b.condition ≠ "" ↔
          b.condition_label ∈ ["yes", "true", "y", "no", "false", "n"]) := by
  intro s hs
  exact visitStack_steps templates nodes edges roles
    (fun s => pyLower s.role = "decision" →
      ∃ bs, s.branches = some bs ∧
        bs.length = ((nextMapOf edges s.node_id).filter
          (fun out => (idToNode nodes out.1).isSome)).length ∧
        ∀ b ∈ bs, (b.condition ≠ "" ↔
          b.condition_label ∈ ["yes", "true", "y", "no", "false", "n"]))
    (fun node => (buildStep_props templates nodes edges roles node).1)
    (traversal_order.length + edges.length + 1) traversal_order ([], [])
    (fun s hs => absurd hs (List.not_mem_nil s)) s hs

/-- Witness for C7: the amended theorem applied to a concrete decision
node with one outgoing edge labelled " Yes " to an existing target. -/
theorem claim_C7_witness :
    ∃ bs, (⟨"d", "x?", "Decision", "diamond", none, "decision",
        some [⟨"yes", "yes", "t", "Target"⟩], none⟩ : Step).branches =
          some bs ∧
      bs.length = ((nextMapOf [⟨"d", "t", " Yes "⟩]
          (⟨"d", "x?", "Decision", "diamond", none, "decision",
            some [⟨"yes", "yes", "t", "Target"⟩], none⟩ : Step).node_id).filter
        (fun out =>
          (idToNode [mkNode "d" "x?" "diamond", mkNode "t" "Target" ""]
            out.1).isSome)).length ∧
      ∀ b ∈ bs, (b.condition ≠ "" ↔
        b.condition_label ∈ ["yes", "true", "y", "no", "false", "n"]) :=
  claim_C7_amended [] [mkNode "d" "x?" "diamond", mkNode "t" "Target" ""]
    [⟨"d", "t", " Yes "⟩] [("d", "Decision")] ["d"] "Flowchart"
    ⟨"d", "x?", "Decision", "diamond", none, "decision",
      some [⟨"yes", "yes", "t", "Target"⟩], none⟩
    (by decide) (by decide)

/-- C9: for every node visited by the interpreter, the emitted step
carries a `next_id` if and only if the node has exactly one outgoing
edge and its lowercased role is neither "decision" nor "end"; when
present, `next_id` is that single edge's target id. -/
theorem claim_C9_next_id (templates : Templates) (nodes : List Node)
    (edges : List Edge) (roles : List (String × String))
    (traversal_order : List String) (dt : String) :
    ∀ s ∈ (interpret_flowchart templates nodes edges roles traversal_order
        dt).execution_flow,
      (s.next_id.isSome = true ↔
        ((nextMapOf edges s.node_id).length = 1 ∧
          pyLower s.role ≠ "decision" ∧ pyLower s.role ≠ "end")) ∧
      (∀ t, s.next_id = some t →
        (nextMapOf edges s.node_id).map Prod.fst = [t]) := by
  intro s hs
  exact visitStack_steps templates nodes edges roles
    (fun s => (s.next_id.isSome = true ↔
        ((nextMapOf edges s.node_id).length = 1 ∧
          pyLower s.role ≠ "decision" ∧ pyLower s.role ≠ "end")) ∧
      (∀ t, s.next_id = some t →
        (nextMapOf edges s.node_id).map Prod.fst = [t]))
    (fun node => ⟨(buildStep_props templates nodes edges roles node).2.1,
      (buildStep_props templates nodes edges roles node).2.2⟩)
    (traversal_order.length + edges.length + 1) traversal_order ([], [])
    (fun s hs => absurd hs (List.not_mem_nil s)) s hs

/-- Witness for C9: the theorem applied to the step of a single
zero-successor process node (which correctly carries no next_id). -/
theorem claim_C9_witness :
    ((⟨"a", "x", "Process", "", none, "process", none, none⟩ : Step).next_id.isSome
        = true ↔
      ((nextMapOf []
          (⟨"a", "x", "Process", "", none, "process", none, none⟩ : Step).node_id).length = 1 ∧
        pyLower (⟨"a", "x", "Process", "", none, "process", none,
          none⟩ : Step).role ≠ "decision" ∧
        pyLower (⟨"a", "x", "Process", "", none, "process", none,
          none⟩ : Step).role ≠ "end")) ∧
    (∀ t, (⟨"a", "x", "Process", "", none, "process", none,
        none⟩ : Step).next_id = some t →
      (nextMapOf []
        (⟨"a", "x", "Process", "", none, "process", none,
          none⟩ : Step).node_id).map Prod.fst = [t]) :=
  claim_C9_next_id [] [mkNode "a" "x" ""] [] [("a", "Process")] ["a"]
    "Flowchart" ⟨"a", "x", "Process", "", none, "process", none, none⟩
    (by decide)

/-- C10: ids appearing in the traversal order or reached through edges
without a corresponding node produce no execution-flow step and no
exception: the interpreter marks them visited and skips them (third
conjunct, the exact one-step reduction); consequently every emitted step
has a node_id present in the input node list and each node id
contributes at most one step. -/
theorem claim_C10_missing_ids (templates : Templates) (nodes : List Node)
    (edges : List Edge) (roles : List (String × String))
    (traversal_order : List String) (dt : String) :
    (∀ s ∈ (interpret_flowchart templates nodes edges roles traversal_order
        dt).execution_flow, s.node_id ∈ nodes.map Node.id) ∧
    ((interpret_flowchart templates nodes edges roles traversal_order
        dt).execution_flow.map Step.node_id).Nodup ∧
    (∀ (fuel : Nat) (rest visited : List String) (flow : List Step)
        (nid : String), nid ∉ visited → idToNode nodes nid = none →
      visitStack templates nodes edges roles (fuel + 1) (nid :: rest)
        (visited, flow) =
      visitStack templates nodes edges roles fuel rest
        (nid :: visited, flow)) := by
  have h := visitStack_nodup templates nodes edges roles
    (traversal_order.length + edges.length + 1) traversal_order [] []
    (by simp) (by simp)
  refine ⟨fun s hs => (h.2 s hs).2, h.1, ?_⟩
  intro fuel rest visited flow nid hv hn
  simp only [visitStack]
  rw [if_neg hv, hn]

/-- Witness for C10: the one emitted step of a graph whose traversal
order mentions the missing id "nothere" and whose single edge points to
the missing id "zz" has its node_id among the node ids, and visiting a
missing id only marks it visited. -/
theorem claim_C10_witness :
    ((⟨"a", "P", "Process", "", none, "process", none,
        some "zz"⟩ : Step).node_id ∈
      ([mkNode "a" "P" ""] : List Node).map Node.id) ∧
    visitStack [] [mkNode "a" "P" ""] [⟨"a", "zz", ""⟩] [("a", "Process")] 1
        ["zz"] ([], []) =
      visitStack [] [mkNode "a" "P" ""] [⟨"a", "zz", ""⟩] [("a", "Process")] 0
        [] (["zz"], []) :=
  ⟨(claim_C10_missing_ids [] [mkNode "a" "P" ""] [⟨"a", "zz", ""⟩]
      [("a", "Process")] ["a", "nothere"] "Flowchart").1
    ⟨"a", "P", "Process", "", none, "process", none, some "zz"⟩ (by decide),
   (claim_C10_missing_ids [] [mkNode "a" "P" ""] [⟨"a", "zz", ""⟩]
      [("a", "Process")] ["a", "nothere"] "Flowchart").2.2 0 [] [] [] "zz"
    (by decide) rfl⟩

end PLT
